import Mathlib

/-!
# Verification of the gdbplotter acquisition engine

A shallow embedding of the parts of `gdbplotter` (files
`src/gdbplotter/datastructures.py` and `src/gdbplotter/armtraceparser.py`)
that the verified claims are about, together with theorems settling those
claims.

Modelling conventions:
* Python byte strings become `List Nat` (one entry per byte).
* A `struct` format string is modelled by its parsed form: an explicit byte
  order plus the ordered list of primitive field types (standard sizes, as
  with a `<` or `>` prefix).  Integer fields decode to their (signed or
  unsigned) value; IEEE-float fields are represented by their raw unsigned
  bit pattern, since only byte counts and decode success matter here.
* Fallible operations (`struct.unpack` raising on a length mismatch, GDB
  transport reads raising `TransportError`) become `Option`-valued
  functions; `none` is the raised exception.
* Python `dict`-of-lists results are flattened to ordered association
  lists; `region_data` from `_parse_trace_packets` becomes the ordered
  list of `(region name, payload)` emission events, from which the dict is
  recovered by grouping on the name.
-/

namespace Gdbplotter

/-- Byte order of a struct format string (`<` little endian, `>` big endian). -/
inductive ByteOrder where
  | little
  | big
deriving DecidableEq

/-- Primitive field types of a struct format string, as used by
`MemoryRegion.format_str`: integers of 1/2/4/8 bytes (signed and unsigned)
and IEEE floats of 4/8 bytes. -/
inductive FieldType where
  | i8 | u8 | i16 | u16 | i32 | u32 | i64 | u64 | f32 | f64
deriving DecidableEq

/-- Width in bytes of one field (`struct.calcsize` of the single code). -/
def FieldType.size : FieldType → Nat
  | .i8 => 1 | .u8 => 1
  | .i16 => 2 | .u16 => 2
  | .i32 => 4 | .u32 => 4
  | .i64 => 8 | .u64 => 8
  | .f32 => 4 | .f64 => 8

/-- Whether the field decodes to a signed integer. -/
def FieldType.isSigned : FieldType → Bool
  | .i8 | .i16 | .i32 | .i64 => true
  | _ => false

/-- Little-endian value of a byte list (first byte least significant). -/
def leValue : List Nat → Nat
  | [] => 0
  | b :: bs => b + 256 * leValue bs

/-- Unsigned value of a field's bytes under the given byte order. -/
def fieldRawValue (o : ByteOrder) (bytes : List Nat) : Nat :=
  match o with
  | .little => leValue bytes
  | .big => leValue bytes.reverse

/-- Value of one decoded field, as `struct.unpack` produces it: signed
integers are sign extended, everything else (unsigned integers, float bit
patterns) is the raw unsigned value. -/
def FieldType.interp (f : FieldType) (o : ByteOrder) (bytes : List Nat) : Int :=
  let v := fieldRawValue o bytes
  if f.isSigned ∧ 2 ^ (8 * f.size - 1) ≤ v then (v : Int) - 2 ^ (8 * f.size) else (v : Int)

/-- `struct.unpack` over a field list: succeeds exactly when the payload
length equals the total declared width, otherwise raises (`none`). -/
def decodeFields (o : ByteOrder) : List FieldType → List Nat → Option (List Int)
  | [], [] => some []
  | [], _ :: _ => none
  | f :: fs, bytes =>
    if f.size ≤ bytes.length then
      match decodeFields o fs (bytes.drop f.size) with
      | some vs => some (f.interp o (bytes.take f.size) :: vs)
      | none => none
    else none

/-- `MemoryRegion` from `datastructures.py`: address, parsed format string,
and name. -/
structure MemoryRegion where
  address : Nat
  order : ByteOrder
  fields : List FieldType
  name : String
deriving DecidableEq

/-- `MemoryRegion.get_byte_count`: `struct.calcsize(self.format_str)`. -/
def MemoryRegion.get_byte_count (r : MemoryRegion) : Nat :=
  (r.fields.map FieldType.size).sum

/-- `MemoryRegion.get_field_count`: number of values `struct.unpack` yields. -/
def MemoryRegion.get_field_count (r : MemoryRegion) : Nat :=
  r.fields.length

/-- `MemoryRegion.decode`: `struct.unpack(self.format_str, payload)`;
raises (`none`) when the payload length does not match. -/
def MemoryRegion.decode (r : MemoryRegion) (payload : List Nat) : Option (List Int) :=
  decodeFields r.order r.fields payload

/-- `DebugDataPacket` from `datastructures.py`.  Its `__init__` stores the
region and payload as given, with no validation of the payload length. -/
structure DebugDataPacket where
  region : MemoryRegion
  raw : List Nat
deriving DecidableEq

/-- `DebugDataPacket.decode`: `self.region.decode(self.raw)`. -/
def DebugDataPacket.decode (p : DebugDataPacket) : Option (List Int) :=
  p.region.decode p.raw

/-! ## The trace packet decoder (`armtraceparser.py`) -/

/-- Lookup in the comparator assignment table (`self.comparator_map`),
modelled as an insertion-ordered association list with distinct keys. -/
def lookupComp (cmap : List (Nat × String)) (k : Nat) : Option String :=
  (cmap.find? (fun p => p.1 = k)).map (fun p => p.2)

/-- `TraceParser._parse_dwt_packet`.  Returns
`(comparator_index, data_bytes, bytes_consumed)`, or `none` for the
Python `(None, None, 0)` failure result.  The `payload` argument is
unused, exactly as in the source (the caller passes `b''`). -/
def parse_dwt_packet (header : Nat) (payload : List Nat) (offset : Nat)
    (trace_stream : List Nat) : Option (Nat × List Nat × Nat) :=
  let _ := payload
  let discriminator := (header >>> 3) &&& 0x1F
  if discriminator ∈ [0x01, 0x02, 0x03, 0x0E, 0x0F] then
    let comp_num := header &&& 0x03
    let size_field := (header >>> 1) &&& 0x03
    let payload_size := [1, 2, 4, 4].getD size_field 0
    if offset + payload_size > trace_stream.length then none
    else some (comp_num, (trace_stream.drop offset).take payload_size, payload_size)
  else none

/-- `TraceParser._parse_itm_packet`.  Returns
`(port_number, data_bytes, bytes_consumed)` or `none` on failure. -/
def parse_itm_packet (header : Nat) (offset : Nat)
    (trace_stream : List Nat) : Option (Nat × List Nat × Nat) :=
  if header &&& 0x01 = 0 then none
  else
    let port := (header >>> 3) &&& 0x1F
    let size_field := (header >>> 1) &&& 0x03
    if size_field = 0x03 then none
    else
      let payload_size := [1, 2, 4].getD size_field 0
      if offset + payload_size > trace_stream.length then none
      else some (port, (trace_stream.drop offset).take payload_size, payload_size)

/-- Number of leading `0x00` bytes of a list. -/
def countLeadingZeros : List Nat → Nat
  | [] => 0
  | b :: bs => if b = 0 then countLeadingZeros bs + 1 else 0

/-- The synchronization-sequence skip of `_parse_trace_packets`
(`while offset < len(trace_stream) and trace_stream[offset] == 0x00`):
the first index at or after `cur` holding a nonzero byte. -/
def skipZeros (stream : List Nat) (cur : Nat) : Nat :=
  cur + countLeadingZeros (stream.drop cur)

/-- One iteration of the `_parse_trace_packets` loop body, for the header
byte `header` read at index `offset` (so the cursor is at `offset + 1`).
Returns the cursor after the iteration, the `(region name, payload)`
emissions appended to `region_data` during the iteration, and the number
of buffer-overflow warnings printed. -/
def stepWith (cmap : List (Nat × String)) (regions : List MemoryRegion)
    (stream : List Nat) (offset : Nat) (header : Nat) :
    Nat × List (String × List Nat) × Nat :=
  let cur := offset + 1
  if header = 0x00 then (cur, [], 0)
  else if header = 0x80 then (skipZeros stream cur, [], 0)
  else if header &&& 0xF0 = 0xC0 ∨ header &&& 0xF0 = 0x70 then (cur, [], 0)
  else if header = 0x70 then (cur, [], 1)
  else if header &&& 0x04 = 0x04 then
    match parse_dwt_packet header [] cur stream with
    | some (comp_num, data_bytes, consumed) =>
      if data_bytes ≠ [] then
        match lookupComp cmap comp_num with
        | some region_name =>
          match regions.find? (fun r => r.name = region_name) with
          | some region =>
            let expected_size := region.get_byte_count
            let ext :=
              if data_bytes.length < expected_size then
                let bytes_needed := expected_size - data_bytes.length
                if cur + consumed + bytes_needed ≤ stream.length then
                  ((stream.drop cur).take (consumed + bytes_needed), bytes_needed)
                else (data_bytes, consumed)
              else (data_bytes, consumed)
            let evs :=
              if expected_size ≤ ext.1.length then [(region_name, ext.1.take expected_size)]
              else []
            (cur + ext.2, evs, 0)
          | none => (cur + consumed, [], 0)
        | none => (cur + consumed, [], 0)
      else (cur, [], 0)
    | none => (cur, [], 0)
  else if header &&& 0x01 = 0x01 then
    match parse_itm_packet header cur stream with
    | some (_, data_bytes, consumed) =>
      if data_bytes ≠ [] then (cur + consumed, [], 0) else (cur, [], 0)
    | none => (cur, [], 0)
  else (cur, [], 0)

/-- One loop iteration reading its header byte from the stream. -/
def step (cmap : List (Nat × String)) (regions : List MemoryRegion)
    (stream : List Nat) (offset : Nat) : Nat × List (String × List Nat) × Nat :=
  stepWith cmap regions stream offset (stream.getD offset 0)

/-- The `_parse_trace_packets` scan from cursor `offset`, driven by
explicit fuel.  Since every iteration advances the cursor by at least one
(the header byte), fuel `stream.length - offset` always suffices; see
`scanFromFuel_congr`.  Returns the emission events, the list of offsets at
which header bytes were consumed, and the overflow-warning count. -/
def scanFromFuel (cmap : List (Nat × String)) (regions : List MemoryRegion)
    (stream : List Nat) : Nat → Nat → List (String × List Nat) × List Nat × Nat
  | 0, _ => ([], [], 0)
  | fuel + 1, offset =>
    if offset < stream.length then
      let s := step cmap regions stream offset
      let t := scanFromFuel cmap regions stream fuel s.1
      (s.2.1 ++ t.1, offset :: t.2.1, s.2.2 + t.2.2)
    else ([], [], 0)

/-- `TraceParser._parse_trace_packets`, instrumented: component 1 is the
flattened `region_data`, component 2 the offsets of consumed header bytes,
component 3 the overflow-warning count. -/
def parse_trace_packets (cmap : List (Nat × String)) (regions : List MemoryRegion)
    (trace_stream : List Nat) : List (String × List Nat) × List Nat × Nat :=
  scanFromFuel cmap regions trace_stream trace_stream.length 0

/-- The packet-building part of `TraceParser.receive` (lines 448–452):
each decoded payload becomes a `DebugDataPacket` if its length equals the
region's byte count. -/
def trace_receive (cmap : List (Nat × String)) (regions : List MemoryRegion)
    (trace_stream : List Nat) : List DebugDataPacket :=
  (parse_trace_packets cmap regions trace_stream).1.filterMap (fun ev =>
    match regions.find? (fun r => r.name = ev.1) with
    | some region =>
      if ev.2.length = region.get_byte_count then some ⟨region, ev.2⟩ else none
    | none => none)

/-- The comparator-configuration loop of `TraceParser.start` (lines
406–411): `for idx, region in enumerate(self.regions)` with a warning and
`break` at `idx >= 4`, otherwise `_configure_dwt_comparator(idx, region)`
which records `comparator_map[idx] = region.name`.  Returns the resulting
comparator assignment table and whether the warning was printed. -/
def configLoop : Nat → List MemoryRegion → List (Nat × String) × Bool
  | _, [] => ([], false)
  | idx, region :: rest =>
    if 4 ≤ idx then ([], true)
    else
      let r := configLoop (idx + 1) rest
      ((idx, region.name) :: r.1, r.2)

/-- The comparator assignment table and exhaustion warning produced by
`TraceParser.start` for a region list. -/
def start_comparators (regions : List MemoryRegion) : List (Nat × String) × Bool :=
  configLoop 0 regions

/-! ## The ETB buffer drain (`_read_etb_buffer`) -/

/-- ETB RAM buffer base address (`TraceParser.ETB_RAM`). -/
def ETB_RAM : Nat := 0xE0042000
/-- ETB status register (`TraceParser.ETB_STS`). -/
def ETB_STS : Nat := 0xE0042008
/-- ETB RAM read pointer (`TraceParser.ETB_RRP`). -/
def ETB_RRP : Nat := 0xE004200C
/-- ETB RAM write pointer (`TraceParser.ETB_RWP`). -/
def ETB_RWP : Nat := 0xE0042010

/-- The transport operations `_read_etb_buffer` performs, as oracles.
`readMem a l = none` models `GdbParser._read_memory` raising
`TransportError`; `some bytes` is a successful read (possibly short).
`writeOk = false` models the final `_write_register` raising. -/
structure EtbEnv where
  readMem : Nat → Nat → Option (List Nat)
  writeOk : Bool

/-- `TraceParser._read_register`: reads 4 bytes, unpacks `'<I'` when
exactly 4 bytes arrive, and returns 0 on a short or empty read; `none`
propagates a transport exception. -/
def read_register (env : EtbEnv) (address : Nat) : Option Nat :=
  match env.readMem address 4 with
  | none => none
  | some data => some (if data ≠ [] ∧ data.length = 4 then leValue data else 0)

/-- `TraceParser._read_etb_buffer`.  Component 1 is the returned byte
string; component 2 is `some w` when the read pointer was advanced to `w`
(the final `_write_register(ETB_RRP, rwp)` ran without raising) and
`none` otherwise.  An exception (`none` from an oracle) jumps to the
`except` handler, which returns the bytes accumulated so far. -/
def read_etb_buffer (env : EtbEnv) (etb_buffer_size : Nat) : List Nat × Option Nat :=
  match read_register env ETB_STS with
  | none => ([], none)
  | some sts =>
    if sts &&& 0x1 = 0 then ([], none)
    else
      match read_register env ETB_RRP with
      | none => ([], none)
      | some rrp =>
        match read_register env ETB_RWP with
        | none => ([], none)
        | some rwp =>
          if rrp = rwp then ([], none)
          else
            let buffer_size_words := etb_buffer_size / 4
            if rrp < rwp then
              match env.readMem (ETB_RAM + rrp * 4) ((rwp - rrp) * 4) with
              | none => ([], none)
              | some data => (data, if env.writeOk then some rwp else none)
            else
              let words_to_end := buffer_size_words - rrp
              match (if 0 < words_to_end then
                      env.readMem (ETB_RAM + rrp * 4) (words_to_end * 4)
                     else some []) with
              | none => ([], none)
              | some chunk1 =>
                match (if 0 < rwp then env.readMem ETB_RAM (rwp * 4) else some []) with
                | none => (chunk1, none)
                | some chunk2 =>
                  (chunk1 ++ chunk2, if env.writeOk then some rwp else none)

/-- An environment backed by a plain byte-addressed memory `mem`, where
every read succeeds: `readMem a l` returns the `l` bytes starting at `a`.
Hardware registers are memory mapped, so register reads land in `mem`
as well. -/
def envOfMem (mem : Nat → Nat) : EtbEnv where
  readMem a l := some ((List.range l).map (fun i => mem (a + i)))
  writeOk := true

/-- The value a 32-bit register read returns from memory `mem` at
address `a` (little-endian). -/
def regVal (mem : Nat → Nat) (a : Nat) : Nat :=
  leValue ((List.range 4).map (fun i => mem (a + i)))

/-- The 4 bytes of buffer word `w` in memory `mem`. -/
def wordBytes (mem : Nat → Nat) (w : Nat) : List Nat :=
  (List.range 4).map (fun i => mem (ETB_RAM + w * 4 + i))

/-! ## Helper lemmas -/

/-- `struct.unpack` succeeds exactly when the payload length equals the
total declared field width. -/
theorem decodeFields_isSome (o : ByteOrder) (fs : List FieldType) (bytes : List Nat) :
    (decodeFields o fs bytes).isSome ↔ bytes.length = (fs.map FieldType.size).sum := by
  induction fs generalizing bytes with
  | nil => cases bytes <;> simp [decodeFields]
  | cons f fs ih =>
    simp only [decodeFields, List.map_cons, List.sum_cons]
    by_cases h : f.size ≤ bytes.length
    · rw [if_pos h]
      have h2 := ih (bytes.drop f.size)
      rw [List.length_drop] at h2
      rcases hrec : decodeFields o fs (bytes.drop f.size) with _ | vs <;>
        rw [hrec] at h2 <;> simp only [Option.isSome_none, Option.isSome_some] at h2 ⊢ <;>
        simp only [Bool.false_eq_true, false_iff, true_iff, iff_false, iff_true] at h2 ⊢ <;>
        omega
    · rw [if_neg h]
      simp only [Option.isSome_none, Bool.false_eq_true, false_iff]
      omega

/-- Every loop iteration of `_parse_trace_packets` strictly advances the
cursor: at least the header byte is consumed. -/
theorem stepWith_offset_lt (cmap : List (Nat × String)) (regions : List MemoryRegion)
    (stream : List Nat) (offset : Nat) (header : Nat) :
    offset < (stepWith cmap regions stream offset header).1 := by
  unfold stepWith
  dsimp only
  repeat' split
  all_goals dsimp only [skipZeros]
  all_goals omega

/-- Cursor progress for the stream-reading iteration. -/
theorem step_offset_lt (cmap : List (Nat × String)) (regions : List MemoryRegion)
    (stream : List Nat) (offset : Nat) :
    offset < (step cmap regions stream offset).1 :=
  stepWith_offset_lt cmap regions stream offset _

/-- The header offsets visited by the scan are bounded below by the start
cursor, strictly increasing, and no more numerous than the bytes left. -/
theorem scanFromFuel_headers (cmap : List (Nat × String)) (regions : List MemoryRegion)
    (stream : List Nat) :
    ∀ fuel offset,
      (∀ x ∈ (scanFromFuel cmap regions stream fuel offset).2.1, offset ≤ x) ∧
      List.Pairwise (· < ·) (scanFromFuel cmap regions stream fuel offset).2.1 ∧
      (scanFromFuel cmap regions stream fuel offset).2.1.length ≤ stream.length - offset := by
  intro fuel
  induction fuel with
  | zero => intro offset; simp [scanFromFuel]
  | succ n ih =>
    intro offset
    rw [scanFromFuel]
    by_cases h : offset < stream.length
    · rw [if_pos h]
      dsimp only
      have hlt := step_offset_lt cmap regions stream offset
      obtain ⟨h1, h2, h3⟩ := ih (step cmap regions stream offset).1
      refine ⟨?_, ?_, ?_⟩
      · intro x hx
        rcases List.mem_cons.mp hx with rfl | hx
        · exact le_refl x
        · exact le_trans (le_of_lt hlt) (h1 x hx)
      · exact List.pairwise_cons.mpr ⟨fun x hx => lt_of_lt_of_le hlt (h1 x hx), h2⟩
      · simp only [List.length_cons]
        omega
    · rw [if_neg h]
      simp

/-- Fuel adequacy: any fuel covering the bytes left of the cursor gives
the same scan result — the Python `while` loop and the fuelled recursion
agree, and the scan finishes within `stream.length` iterations. -/
theorem scanFromFuel_congr (cmap : List (Nat × String)) (regions : List MemoryRegion)
    (stream : List Nat) :
    ∀ f g offset, stream.length - offset ≤ f → stream.length - offset ≤ g →
      scanFromFuel cmap regions stream f offset = scanFromFuel cmap regions stream g offset := by
  intro f
  induction f with
  | zero =>
    intro g offset hf hg
    have hlen : ¬ offset < stream.length := by omega
    cases g with
    | zero => rfl
    | succ m => rw [scanFromFuel, scanFromFuel, if_neg hlen]
  | succ n ih =>
    intro g offset hf hg
    by_cases h : offset < stream.length
    · cases g with
      | zero => omega
      | succ m =>
        rw [scanFromFuel, scanFromFuel, if_pos h, if_pos h]
        dsimp only
        have hlt := step_offset_lt cmap regions stream offset
        rw [ih m (step cmap regions stream offset).1 (by omega) (by omega)]
    · cases g with
      | zero => rw [scanFromFuel, scanFromFuel, if_neg h]
      | succ m => rw [scanFromFuel, scanFromFuel, if_neg h, if_neg h]

/-- A lookup hit comes from an entry of the table. -/
theorem lookupComp_some {cmap : List (Nat × String)} {k : Nat} {n : String}
    (h : lookupComp cmap k = some n) : ∃ p ∈ cmap, p.2 = n := by
  unfold lookupComp at h
  cases hf : cmap.find? (fun p => p.1 = k) with
  | none => rw [hf] at h; simp at h
  | some p =>
    rw [hf] at h
    simp only [Option.map_some', Option.some.injEq] at h
    exact ⟨p, List.mem_of_find?_eq_some hf, h⟩

/-- Every region name emitted by one loop iteration was obtained from the
comparator assignment table. -/
theorem stepWith_events (cmap : List (Nat × String)) (regions : List MemoryRegion)
    (stream : List Nat) (offset : Nat) (header : Nat) :
    ∀ ev ∈ (stepWith cmap regions stream offset header).2.1,
      ∃ c, lookupComp cmap c = some ev.1 := by
  unfold stepWith
  dsimp only
  repeat' split
  all_goals intro ev hev
  all_goals try simp only [List.not_mem_nil] at hev
  all_goals rw [List.mem_singleton] at hev
  all_goals subst hev
  all_goals exact ⟨_, by dsimp only; assumption⟩

/-- Every region name emitted by the scan was obtained from the comparator
assignment table. -/
theorem scanFromFuel_events (cmap : List (Nat × String)) (regions : List MemoryRegion)
    (stream : List Nat) :
    ∀ fuel offset, ∀ ev ∈ (scanFromFuel cmap regions stream fuel offset).1,
      ∃ c, lookupComp cmap c = some ev.1 := by
  intro fuel
  induction fuel with
  | zero => intro offset ev hev; simp [scanFromFuel] at hev
  | succ n ih =>
    intro offset ev hev
    rw [scanFromFuel] at hev
    by_cases h : offset < stream.length
    · rw [if_pos h] at hev
      dsimp only at hev
      rcases List.mem_append.mp hev with h2 | h2
      · exact stepWith_events cmap regions stream offset _ ev h2
      · exact ih _ ev h2
    · rw [if_neg h] at hev
      simp at hev

/-- Every comparator table entry made by the `start` loop has index below
4 and carries the name of the region at that index. -/
theorem configLoop_mem :
    ∀ (rs : List MemoryRegion) (idx : Nat) (p : Nat × String),
      p ∈ (configLoop idx rs).1 →
      idx ≤ p.1 ∧ p.1 < 4 ∧ ∃ r, rs[p.1 - idx]? = some r ∧ p.2 = r.name := by
  intro rs
  induction rs with
  | nil => intro idx p hp; simp [configLoop] at hp
  | cons region rest ih =>
    intro idx p hp
    rw [configLoop] at hp
    by_cases h4 : 4 ≤ idx
    · rw [if_pos h4] at hp; simp at hp
    · rw [if_neg h4] at hp
      dsimp only at hp
      rcases List.mem_cons.mp hp with rfl | hp
      · exact ⟨le_refl _, by omega, region, by simp, rfl⟩
      · obtain ⟨hle, hlt, r, hget, hname⟩ := ih (idx + 1) p hp
        refine ⟨by omega, hlt, r, ?_, hname⟩
        have hsub : p.1 - idx = (p.1 - (idx + 1)) + 1 := by omega
        rw [hsub, List.getElem?_cons_succ]
        exact hget

/-- The `start` loop prints its comparator-exhaustion warning exactly when
regions remain at loop index 4. -/
theorem configLoop_warn :
    ∀ (rs : List MemoryRegion) (idx : Nat), idx ≤ 4 →
      ((configLoop idx rs).2 = true ↔ 4 < idx + rs.length) := by
  intro rs
  induction rs with
  | nil =>
    intro idx h
    simp only [configLoop, List.length_nil]
    constructor
    · intro hf; cases hf
    · omega
  | cons region rest ih =>
    intro idx h
    rw [configLoop]
    by_cases h4 : 4 ≤ idx
    · rw [if_pos h4]
      simp only [List.length_cons, true_iff]
      omega
    · rw [if_neg h4]
      dsimp only
      rw [ih (idx + 1) (by omega)]
      simp only [List.length_cons]
      omega

/-- In a memory-backed environment every register read succeeds and yields
the little-endian word at the register's address. -/
theorem read_register_envOfMem (mem : Nat → Nat) (a : Nat) :
    read_register (envOfMem mem) a = some (regVal mem a) := by
  simp [read_register, envOfMem, regVal]

/-- The one contiguous memory read of `n` buffer words starting at word
`a` returns exactly the bytes of words `a, a+1, ..., a+n-1` in order. -/
theorem range_map_eq_flatMap_wordBytes (mem : Nat → Nat) :
    ∀ (n a : Nat),
      (List.range (n * 4)).map (fun i => mem (ETB_RAM + a * 4 + i)) =
      (List.range' a n).flatMap (wordBytes mem) := by
  intro n
  induction n with
  | zero => intro a; simp
  | succ m ih =>
    intro a
    have h4 : (m + 1) * 4 = 4 + m * 4 := by ring
    rw [h4, List.range_add, List.map_append, List.map_map, List.range'_succ]
    rw [List.flatMap_cons]
    congr 1
    rw [← ih (a + 1)]
    apply List.map_congr_left
    intro i _
    have : ETB_RAM + a * 4 + (4 + i) = ETB_RAM + (a + 1) * 4 + i := by ring
    simp only [Function.comp_apply]
    rw [this]

/-! ## Concrete instances used by the claims -/

/-- A 1-byte region named `"x"`. -/
def region_x : MemoryRegion := ⟨0x20000000, .little, [.u8], "x"⟩

/-- An 8-byte region named `"d"`. -/
def region_d : MemoryRegion := ⟨0x20000004, .little, [.u64], "d"⟩

/-- A 4-byte region named `"y"`. -/
def region_y : MemoryRegion := ⟨0x20000008, .little, [.u32], "y"⟩

/-- Five 1-byte regions with distinct names. -/
def regions5 : List MemoryRegion :=
  [⟨0, .little, [.u8], "a"⟩, ⟨1, .little, [.u8], "b"⟩, ⟨2, .little, [.u8], "c"⟩,
   ⟨3, .little, [.u8], "p"⟩, ⟨4, .little, [.u8], "e"⟩]

/-- Memory-mapped register state for a wrap-around drain: status bit set,
read pointer 6, write pointer 2, all buffer bytes zero. -/
def memC2 : Nat → Nat := fun a =>
  if a = ETB_STS then 1 else if a = ETB_RRP then 6 else if a = ETB_RWP then 2 else 0

/-- A wrap-around drain environment in which the status and pointer reads
and the first chunk read (words 6 and 7 at `ETB_RAM + 24`) succeed, but
the second chunk read (at `ETB_RAM`) raises. -/
def envC6 : EtbEnv where
  readMem a _ :=
    if a = ETB_STS then some [1, 0, 0, 0]
    else if a = ETB_RRP then some [6, 0, 0, 0]
    else if a = ETB_RWP then some [2, 0, 0, 0]
    else if a = ETB_RAM + 24 then some [1, 2, 3, 4, 5, 6, 7, 8]
    else none
  writeOk := true

/-- An environment in which every transport read raises. -/
def envFail : EtbEnv where
  readMem _ _ := none
  writeOk := true

/-! ## The claims -/

/-- C1, counterexample: with comparator 0 mapped to the 1-byte region
`"x"`, decoding `[0x04, 0xAB]` yields no DebugDataPacket at all, not one:
header `0x04` has discriminator 0, which `_parse_dwt_packet` rejects
(its whitelist is `{0x01, 0x02, 0x03, 0x0E, 0x0F}`), so only the header
byte is consumed and `0xAB` is scanned as the next header. -/
theorem claim_C1_counterexample :
    trace_receive [(0, "x")] [region_x] [0x04, 0xAB] = [] ∧
    parse_trace_packets [(0, "x")] [region_x] [0x04, 0xAB] = ([], [0, 1], 0) := by
  decide

/-- C1, amended: a recognized DWT header for comparator 0 — e.g. `0x0C`,
discriminator 1; bit 2 being set forces the size field to 2 and hence a
4-byte payload — with stream `[0x0C, 0xAB, 0x00, 0x00, 0x00]` yields
exactly one DebugDataPacket for region `"x"` with raw `[0xAB]` (the
payload truncated to the region's 1-byte count). -/
theorem claim_C1_amended :
    trace_receive [(0, "x")] [region_x] [0x0C, 0xAB, 0x00, 0x00, 0x00] =
      [⟨region_x, [0xAB]⟩] ∧
    parse_trace_packets [(0, "x")] [region_x] [0x0C, 0xAB, 0x00, 0x00, 0x00] =
      ([("x", [0xAB])], [0], 0) := by
  decide

/-- C3, code-bug evidence: comparator 0 mapped to the 8-byte region `"d"`,
stream `0x0C` followed by payload bytes `1..8`.  The packet is emitted
with the full extended payload, but after the extension the code sets
`consumed = bytes_needed` (4) instead of `payload_size + bytes_needed`
(8), so the cursor lands at offset 5 and the extension bytes at offsets
5..8 are re-scanned as headers: the header-offset trace is
`[0, 5, 6, 7, 8]`, where the claim requires `[0]`. -/
theorem claim_C3_bug :
    parse_trace_packets [(0, "d")] [region_d] [0x0C, 1, 2, 3, 4, 5, 6, 7, 8] =
      ([("d", [1, 2, 3, 4, 5, 6, 7, 8])], [0, 5, 6, 7, 8], 0) := by
  decide

/-- C4, counterexample: header `0x0C` declares a 4-byte payload but only
2 bytes remain, so the packet is rejected — yet decoding does **not**
stop there: the scan continues and consumes the following `0x80`
synchronization header at offset 1 (header trace `[0, 1]`, not `[0]`). -/
theorem claim_C4_counterexample :
    parse_trace_packets [(0, "x")] [region_x] [0x0C, 0x80, 0x00] = ([], [0, 1], 0) ∧
    (parse_trace_packets [(0, "x")] [region_x] [0x0C, 0x80, 0x00]).2.1 ≠ [0] := by
  decide

/-- C5: the trace packet scan always terminates — any fuel of at least
`len(stream)` iterations yields the same result — its header offsets are
strictly increasing (the cursor never moves backward), there are at most
`len(stream)` header-consuming iterations, and every single iteration
consumes at least the header byte. -/
theorem claim_C5 (cmap : List (Nat × String)) (regions : List MemoryRegion)
    (stream : List Nat) :
    List.Pairwise (· < ·) (parse_trace_packets cmap regions stream).2.1 ∧
    (parse_trace_packets cmap regions stream).2.1.length ≤ stream.length ∧
    (∀ offset header, offset < (stepWith cmap regions stream offset header).1) ∧
    (∀ extra, scanFromFuel cmap regions stream (stream.length + extra) 0 =
      parse_trace_packets cmap regions stream) := by
  unfold parse_trace_packets
  obtain ⟨h1, h2, h3⟩ := scanFromFuel_headers cmap regions stream stream.length 0
  refine ⟨h2, by omega,
    fun offset header => stepWith_offset_lt cmap regions stream offset header, ?_⟩
  intro extra
  exact scanFromFuel_congr cmap regions stream (stream.length + extra) stream.length 0
    (by omega) (by omega)

/-- C7, code-bug evidence: the stream `[0x70, 0xAB]` contains the exact
overflow header `0x70`, yet no buffer-overflow warning is printed
(warning count 0): the timestamp check `(header & 0xF0) == 0x70` at line
332 catches `0x70` first and `continue`s, so the dedicated overflow
branch at lines 338–340 is unreachable.  The header is still skipped
without consuming payload (`0xAB` is scanned as the next header). -/
theorem claim_C7_bug :
    parse_trace_packets [] [] [0x70, 0xAB] = ([], [0, 1], 0) := by
  decide

/-- C8, counterexample: `DebugDataPacket.__init__` performs no validation,
so a packet whose raw length (0) differs from its region's byte count (4)
is constructed without error; the mismatch only surfaces when `decode`
raises. -/
theorem claim_C8_counterexample :
    (DebugDataPacket.mk region_y []).raw.length ≠ region_y.get_byte_count ∧
    (DebugDataPacket.mk region_y []).decode = none := by
  decide

/-- C8, amended: `DebugDataPacket` stores the payload exactly as given —
a length mismatch is *not* rejected at construction — and `decode()` is a
pure function that succeeds exactly when the raw length equals the
region's byte count. -/
theorem claim_C8_amended (r : MemoryRegion) (p : List Nat) :
    (DebugDataPacket.mk r p).raw = p ∧
    ((DebugDataPacket.mk r p).decode.isSome ↔ p.length = r.get_byte_count) :=
  ⟨rfl, decodeFields_isSome r.order r.fields p⟩

/-- C4, amended: when a recognized DWT header's declared payload size
exceeds the bytes remaining after it, no packet and no warning is emitted
for it and the iteration consumes exactly the header byte; the scan does
not stop — it continues with the very next byte as a header (there is no
retry machinery: the ETB read pointer was already advanced by the
drain). -/
theorem claim_C4_amended (cmap : List (Nat × String)) (regions : List MemoryRegion)
    (stream : List Nat) (offset fuel header : Nat)
    (hhdr : stream.getD offset 0 = header)
    (hlt : offset < stream.length)
    (ht1 : header &&& 0xF0 ≠ 0xC0) (ht2 : header &&& 0xF0 ≠ 0x70)
    (hdwt : header &&& 0x04 = 0x04)
    (hdisc : (header >>> 3) &&& 0x1F ∈ [0x01, 0x02, 0x03, 0x0E, 0x0F])
    (hshort : stream.length <
      offset + 1 + [1, 2, 4, 4].getD ((header >>> 1) &&& 0x03) 0) :
    step cmap regions stream offset = (offset + 1, [], 0) ∧
    scanFromFuel cmap regions stream (fuel + 1) offset =
      ((scanFromFuel cmap regions stream fuel (offset + 1)).1,
       offset :: (scanFromFuel cmap regions stream fuel (offset + 1)).2.1,
       (scanFromFuel cmap regions stream fuel (offset + 1)).2.2) := by
  have h0 : header ≠ 0x00 := by rintro rfl; simp at hdwt
  have h80 : header ≠ 0x80 := by rintro rfl; simp at hdwt
  have h70 : header ≠ 0x70 := by rintro rfl; exact ht2 (by decide)
  have hdp : parse_dwt_packet header [] (offset + 1) stream = none := by
    unfold parse_dwt_packet
    rw [if_pos hdisc]
    dsimp only
    rw [if_pos (by omega)]
  have hstep : step cmap regions stream offset = (offset + 1, [], 0) := by
    unfold step stepWith
    rw [hhdr]
    dsimp only
    rw [if_neg h0, if_neg h80, if_neg (by tauto), if_neg h70, if_pos hdwt, hdp]
  refine ⟨hstep, ?_⟩
  rw [scanFromFuel, if_pos hlt]
  dsimp only
  rw [hstep]
  simp

/-- C4, witness: the amended theorem applied to the concrete stream
`[0x0C, 0x80, 0x00]`, whose header `0x0C` declares 4 payload bytes with
only 2 remaining. -/
theorem claim_C4_amended_witness :
    step [(0, "x")] [region_x] [0x0C, 0x80, 0x00] 0 = (1, [], 0) :=
  (claim_C4_amended [(0, "x")] [region_x] [0x0C, 0x80, 0x00] 0 1 0x0C rfl
    (by decide) (by decide) (by decide) (by decide) (by decide) (by decide)).1

/-- C6, counterexample: in a wrap-around drain whose second chunk read
raises after the first chunk was read, `_read_etb_buffer` returns the
**non-empty** first chunk, not the empty byte string the claim requires
(the exception is still caught and the read pointer is not advanced). -/
theorem claim_C6_counterexample :
    read_etb_buffer envC6 32 = ([1, 2, 3, 4, 5, 6, 7, 8], none) ∧
    envC6.readMem ETB_RAM (2 * 4) = none := by
  constructor <;> rfl

/-- C6, amended: every transport-read exception during the drain is
caught (nothing propagates) and leaves the read pointer unwritten, and
the drain returns the bytes accumulated before the failure: empty when
the status read, either pointer read, the contiguous read, or the first
wrap-around chunk read fails, and the first chunk when only the second
wrap-around chunk read fails. -/
theorem claim_C6_amended (env : EtbEnv) (bs : Nat) :
    (read_register env ETB_STS = none → read_etb_buffer env bs = ([], none)) ∧
    (∀ sts, read_register env ETB_STS = some sts → sts &&& 0x1 ≠ 0 →
      read_register env ETB_RRP = none → read_etb_buffer env bs = ([], none)) ∧
    (∀ sts rrp, read_register env ETB_STS = some sts → sts &&& 0x1 ≠ 0 →
      read_register env ETB_RRP = some rrp → read_register env ETB_RWP = none →
      read_etb_buffer env bs = ([], none)) ∧
    (∀ sts rrp rwp, read_register env ETB_STS = some sts → sts &&& 0x1 ≠ 0 →
      read_register env ETB_RRP = some rrp → read_register env ETB_RWP = some rwp →
      rrp < rwp → env.readMem (ETB_RAM + rrp * 4) ((rwp - rrp) * 4) = none →
      read_etb_buffer env bs = ([], none)) ∧
    (∀ sts rrp rwp, read_register env ETB_STS = some sts → sts &&& 0x1 ≠ 0 →
      read_register env ETB_RRP = some rrp → read_register env ETB_RWP = some rwp →
      rrp ≠ rwp → ¬ rrp < rwp → 0 < bs / 4 - rrp →
      env.readMem (ETB_RAM + rrp * 4) ((bs / 4 - rrp) * 4) = none →
      read_etb_buffer env bs = ([], none)) ∧
    (∀ sts rrp rwp chunk1, read_register env ETB_STS = some sts → sts &&& 0x1 ≠ 0 →
      read_register env ETB_RRP = some rrp → read_register env ETB_RWP = some rwp →
      rrp ≠ rwp → ¬ rrp < rwp →
      (if 0 < bs / 4 - rrp then
        env.readMem (ETB_RAM + rrp * 4) ((bs / 4 - rrp) * 4) else some []) = some chunk1 →
      0 < rwp → env.readMem ETB_RAM (rwp * 4) = none →
      read_etb_buffer env bs = (chunk1, none)) := by
  refine ⟨?_, ?_, ?_, ?_, ?_, ?_⟩
  · intro h1
    unfold read_etb_buffer
    rw [h1]
  · intro sts h1 h2 h3
    unfold read_etb_buffer
    rw [h1, h3]
    dsimp only
    rw [if_neg h2]
  · intro sts rrp h1 h2 h3 h4
    unfold read_etb_buffer
    rw [h1, h3, h4]
    dsimp only
    rw [if_neg h2]
  · intro sts rrp rwp h1 h2 h3 h4 h5 h6
    unfold read_etb_buffer
    rw [h1, h3, h4]
    dsimp only
    rw [if_neg h2, if_neg (by omega : ¬ rrp = rwp), if_pos h5, h6]
  · intro sts rrp rwp h1 h2 h3 h4 h5 h6 h7 h8
    unfold read_etb_buffer
    rw [h1, h3, h4]
    dsimp only
    rw [if_neg h2, if_neg h5, if_neg h6, if_pos h7, h8]
  · intro sts rrp rwp chunk1 h1 h2 h3 h4 h5 h6 h7 h8 h9
    unfold read_etb_buffer
    rw [h1, h3, h4]
    dsimp only
    rw [if_neg h2, if_neg h5, if_neg h6, h7]
    dsimp only
    rw [if_pos h8, h9]

/-- C6, witness: the amended theorem applied to the environment where the
very first register read (the status register) raises. -/
theorem claim_C6_amended_witness :
    read_etb_buffer envFail 32 = ([], none) ∧ read_register envFail ETB_STS = none :=
  ⟨(claim_C6_amended envFail 32).1 rfl, rfl⟩

/-- C9: the `start` loop registers only comparator indices 0..3 in the
comparator assignment table; it warns exactly when more than 4 regions
were passed; and (when region names are distinct) a region at index 4 or
beyond never appears in the decoder's trace output — its samples can only
come from the polling path. -/
theorem claim_C9 (regions : List MemoryRegion) (stream : List Nat) :
    (∀ p ∈ (start_comparators regions).1, p.1 ≤ 3) ∧
    ((start_comparators regions).2 = true ↔ 4 < regions.length) ∧
    ((regions.map (fun r => r.name)).Nodup →
      ∀ i, 4 ≤ i → ∀ hi : i < regions.length,
        (parse_trace_packets (start_comparators regions).1 regions stream).1.filter
          (fun ev => ev.1 = (regions.get ⟨i, hi⟩).name) = []) := by
  refine ⟨?_, ?_, ?_⟩
  · intro p hp
    have h := (configLoop_mem regions 0 p hp).2.1
    omega
  · have h := configLoop_warn regions 0 (by omega)
    simpa using h
  · intro hnd i h4 hi
    rw [List.filter_eq_nil_iff]
    intro ev hev
    unfold parse_trace_packets at hev
    simp only [decide_eq_true_eq]
    intro heq
    obtain ⟨c, hc⟩ :=
      scanFromFuel_events (start_comparators regions).1 regions stream
        stream.length 0 ev hev
    obtain ⟨p, hpmem, hp2⟩ := lookupComp_some hc
    obtain ⟨-, hlt4, r, hget, hname⟩ := configLoop_mem regions 0 p hpmem
    rw [Nat.sub_zero] at hget
    obtain ⟨hplen, hgeteq⟩ := List.getElem?_eq_some_iff.mp hget
    have hne : p.1 ≠ i := by omega
    apply hne
    have hmap :
        (regions.map (fun r => r.name)).get ⟨p.1, by simpa using hplen⟩ =
        (regions.map (fun r => r.name)).get ⟨i, by simpa using hi⟩ := by
      rw [List.get_eq_getElem, List.get_eq_getElem, List.getElem_map, List.getElem_map]
      rw [hgeteq, ← hname, hp2, heq]
      rw [List.get_eq_getElem]
    have hfin := (hnd.get_inj_iff).mp hmap
    exact congrArg Fin.val hfin

/-- C9, witness: five regions with distinct names; only comparators 0..3
are registered, the exhaustion warning fires, and a stream that does emit
a packet (for region `"a"`) emits nothing for the fifth region `"e"`. -/
theorem claim_C9_witness :
    (parse_trace_packets (start_comparators regions5).1 regions5
      [0x0C, 0xAB, 0x00, 0x00, 0x00]).1.filter
        (fun ev => ev.1 = (regions5.get ⟨4, by decide⟩).name) = [] ∧
    (parse_trace_packets (start_comparators regions5).1 regions5
      [0x0C, 0xAB, 0x00, 0x00, 0x00]).1 = [("a", [0xAB])] :=
  ⟨(claim_C9 regions5 [0x0C, 0xAB, 0x00, 0x00, 0x00]).2.2 (by decide) 4 (by decide)
    (by decide), by decide⟩

/-- C2: with the data-available bit set and distinct in-range pointers,
the drain reads exactly the words `r, ..., w-1` when `w > r`, and the
words `r, ..., buffer_words-1` followed by `0, ..., w-1` on wrap-around;
the drained word indices are duplicate-free, number exactly
`buffer_words - (r - w) mod buffer_words`, and the read pointer is then
set to `w`. -/
theorem claim_C2 (mem : Nat → Nat) (bufWords rrp rwp : Nat)
    (hsts : regVal mem ETB_STS &&& 0x1 ≠ 0)
    (hrrp : regVal mem ETB_RRP = rrp)
    (hrwp : regVal mem ETB_RWP = rwp)
    (hne : rrp ≠ rwp)
    (hrb : rrp < bufWords) (hwb : rwp < bufWords) :
    (read_etb_buffer (envOfMem mem) (bufWords * 4)).1 =
      (if rrp < rwp then List.range' rrp (rwp - rrp)
       else List.range' rrp (bufWords - rrp) ++ List.range' 0 rwp).flatMap
        (wordBytes mem) ∧
    (read_etb_buffer (envOfMem mem) (bufWords * 4)).2 = some rwp ∧
    (if rrp < rwp then List.range' rrp (rwp - rrp)
     else List.range' rrp (bufWords - rrp) ++ List.range' 0 rwp).Nodup ∧
    ((if rrp < rwp then List.range' rrp (rwp - rrp)
      else List.range' rrp (bufWords - rrp) ++ List.range' 0 rwp).length : Int) =
      bufWords - ((rrp : Int) - rwp) % bufWords := by
  have hbw : bufWords * 4 / 4 = bufWords := by omega
  have hdrain : read_etb_buffer (envOfMem mem) (bufWords * 4) =
      ((if rrp < rwp then List.range' rrp (rwp - rrp)
        else List.range' rrp (bufWords - rrp) ++ List.range' 0 rwp).flatMap
          (wordBytes mem), some rwp) := by
    unfold read_etb_buffer
    rw [read_register_envOfMem, read_register_envOfMem, read_register_envOfMem,
      hrrp, hrwp]
    dsimp only
    rw [if_neg hsts, if_neg hne, hbw]
    by_cases hlt : rrp < rwp
    · rw [if_pos hlt, if_pos hlt]
      show (((List.range ((rwp - rrp) * 4)).map
        (fun i => mem (ETB_RAM + rrp * 4 + i)), some rwp) : List Nat × Option Nat) = _
      rw [range_map_eq_flatMap_wordBytes]
    · rw [if_neg hlt, if_neg hlt, if_pos (by omega : 0 < bufWords - rrp)]
      by_cases hw0 : 0 < rwp
      · rw [if_pos hw0]
        show (((List.range ((bufWords - rrp) * 4)).map
            (fun i => mem (ETB_RAM + rrp * 4 + i)) ++
          (List.range (rwp * 4)).map (fun i => mem (ETB_RAM + i)),
          some rwp) : List Nat × Option Nat) = _
        rw [List.flatMap_append, range_map_eq_flatMap_wordBytes]
        have h0 := range_map_eq_flatMap_wordBytes mem rwp 0
        simp only [Nat.zero_mul, Nat.add_zero] at h0
        rw [h0]
      · rw [if_neg hw0]
        have hw : rwp = 0 := by omega
        subst hw
        show (((List.range ((bufWords - rrp) * 4)).map
            (fun i => mem (ETB_RAM + rrp * 4 + i)) ++ [],
          some 0) : List Nat × Option Nat) = _
        rw [List.flatMap_append, range_map_eq_flatMap_wordBytes]
        simp
  refine ⟨by rw [hdrain], by rw [hdrain], ?_, ?_⟩
  · by_cases hlt : rrp < rwp
    · rw [if_pos hlt]
      exact List.nodup_range' rrp (rwp - rrp)
    · rw [if_neg hlt]
      refine List.Nodup.append (List.nodup_range' _ _) (List.nodup_range' _ _) ?_
      rw [List.disjoint_left]
      intro a ha hb
      rw [List.mem_range'_1] at ha hb
      omega
  · by_cases hlt : rrp < rwp
    · rw [if_pos hlt, List.length_range']
      have hmod : ((rrp : Int) - rwp) % bufWords = bufWords - ((rwp : Int) - rrp) := by
        have hrw : (rrp : Int) - rwp =
            ((bufWords : Int) - ((rwp : Int) - rrp)) + bufWords * (-1) := by omega
        rw [hrw, Int.add_mul_emod_self_left]
        exact Int.emod_eq_of_lt (by omega) (by omega)
      rw [hmod]
      omega
    · rw [if_neg hlt, List.length_append, List.length_range', List.length_range']
      have hmod : ((rrp : Int) - rwp) % bufWords = (rrp : Int) - rwp :=
        Int.emod_eq_of_lt (by omega) (by omega)
      rw [hmod]
      omega

/-- C2, witness: the theorem applied to `memC2` — buffer of 8 words, read
pointer 6, write pointer 2 — so the wrap-around drain covers words
`[6, 7, 0, 1]` and leaves the read pointer at 2. -/
theorem claim_C2_witness :
    (read_etb_buffer (envOfMem memC2) 32).2 = some 2 ∧
    regVal memC2 ETB_RRP = 6 ∧ regVal memC2 ETB_RWP = 2 ∧
    (List.range' 6 (8 - 6) ++ List.range' 0 2 : List Nat) = [6, 7, 0, 1] := by
  have h := claim_C2 memC2 8 6 2 (by decide) (by decide) (by decide) (by decide)
    (by decide) (by decide)
  exact ⟨h.2.1, by decide, by decide, by decide⟩

end Gdbplotter
